import Mathlib

/-!
Verification development for the schema-reconciliation and aggregation engine
of `exploracion_datos.py` (class `DataExplorer`).

The Python source is shallowly embedded: pure string helpers become Lean
functions on `List Char` / `String`, pandas DataFrames become an explicit
`DataFrame` structure whose cells are `Option String` (`none` models a
missing / NaN cell), the run-statistics dictionary becomes a `Stats`
structure, and Python dicts become association lists with
insert-or-overwrite semantics.  External library calls (openpyxl / xlrd
decoding, pandas `read_excel`, `concat`, `value_counts`, `to_datetime`)
are modelled by small executable functions; a doc comment on each states
the modelling choice.  Unicode operations (`str.upper`, `str.lower`,
`unicodedata.normalize('NFD')`) are modelled character-wise over the
repertoire occurring in this repository (ASCII plus the Spanish accented
letters); every other character is left unchanged.
-/

namespace Exploracion

/-! ### Character-level primitives -/

/-- Python `str.upper`, character-wise, restricted to ASCII letters and the
Spanish accented letters used by this repository; identity elsewhere. -/
def upperMap : List (Char × Char) :=
  [('a', 'A'), ('b', 'B'), ('c', 'C'), ('d', 'D'), ('e', 'E'), ('f', 'F'),
   ('g', 'G'), ('h', 'H'), ('i', 'I'), ('j', 'J'), ('k', 'K'), ('l', 'L'),
   ('m', 'M'), ('n', 'N'), ('o', 'O'), ('p', 'P'), ('q', 'Q'), ('r', 'R'),
   ('s', 'S'), ('t', 'T'), ('u', 'U'), ('v', 'V'), ('w', 'W'), ('x', 'X'),
   ('y', 'Y'), ('z', 'Z'),
   ('á', 'Á'), ('é', 'É'), ('í', 'Í'), ('ó', 'Ó'), ('ú', 'Ú'),
   ('ü', 'Ü'), ('ñ', 'Ñ')]

def upperChar (c : Char) : Char := (upperMap.lookup c).getD c

/-- Python `str.lower`, character-wise (same repertoire as `upperChar`). -/
def lowerChar (c : Char) : Char :=
  ((upperMap.map (fun p => (p.2, p.1))).lookup c).getD c

/-- Unicode NFD decomposition of one character (`unicodedata.normalize('NFD', ...)`),
restricted to the precomposed accented letters of this repository's repertoire:
each decomposes into its base letter followed by a combining mark. -/
def nfdMap : List (Char × List Char) :=
  [('Á', ['A', '́']), ('É', ['E', '́']), ('Í', ['I', '́']),
   ('Ó', ['O', '́']), ('Ú', ['U', '́']), ('Ü', ['U', '̈']),
   ('Ñ', ['N', '̃']),
   ('á', ['a', '́']), ('é', ['e', '́']), ('í', ['i', '́']),
   ('ó', ['o', '́']), ('ú', ['u', '́']), ('ü', ['u', '̈']),
   ('ñ', ['n', '̃'])]

def nfdChar (c : Char) : List Char := (nfdMap.lookup c).getD [c]

/-- `unicodedata.category(c) == 'Mn'`: the combining diacritical marks block. -/
def isMn (c : Char) : Bool := 0x300 ≤ c.toNat && c.toNat ≤ 0x36F

/-- Python `str.split()` / `str.strip()` whitespace (ASCII repertoire). -/
def isPySpace (c : Char) : Bool :=
  c == ' ' || c == '\t' || c == '\n' || c == '\r' || c == '\x0b' || c == '\x0c'

/-! ### String-level primitives -/

/-- NFD-decompose every character of a string (as a character list). -/
def nfdExpand : List Char → List Char
  | [] => []
  | c :: cs => nfdChar c ++ nfdExpand cs

/-- `''.join(c for c in unicodedata.normalize('NFD', col) if unicodedata.category(c) != 'Mn')`:
decompose, then drop the combining marks. -/
def deaccent (l : List Char) : List Char := (nfdExpand l).filter (fun c => !(isMn c))

/-- Remove the leading run of characters satisfying `p` (the left half of
Python's `str.strip`). -/
def dropLead (p : Char → Bool) : List Char → List Char
  | [] => []
  | c :: cs => if p c then dropLead p cs else c :: cs

/-- Remove the trailing run of characters satisfying `p` (the right half of
Python's `str.strip`). -/
def dropTrail (p : Char → Bool) : List Char → List Char
  | [] => []
  | c :: cs =>
    match dropTrail p cs with
    | [] => if p c then [] else [c]
    | r => c :: r

/-- Python `str.strip(chars)`: remove leading and trailing characters
satisfying `p`. -/
def pyStrip (p : Char → Bool) (l : List Char) : List Char := dropTrail p (dropLead p l)

/-- Python `str.split()` (no argument): split on runs of whitespace,
discarding empty pieces. -/
def pySplit : List Char → List (List Char)
  | [] => []
  | c :: cs =>
    if isPySpace c then pySplit cs
    else
      match pySplit cs with
      | [] => [[c]]
      | w :: ws =>
        if cs.head?.any (fun d => !isPySpace d) then (c :: w) :: ws
        else [c] :: w :: ws

/-- Python `' '.join(words)`. -/
def joinSp : List (List Char) → List Char
  | [] => []
  | [w] => w
  | w :: ws => w ++ ' ' :: joinSp ws

/-- `needle` occurs at the start of `hay` (helper for substring search). -/
def startsWithL : List Char → List Char → Bool
  | [], _ => true
  | _ :: _, [] => false
  | n :: ns, h :: hs => n == h && startsWithL ns hs

/-- Python's `needle in hay` substring test. -/
def hasSub (needle hay : List Char) : Bool :=
  match hay with
  | [] => needle.isEmpty
  | _ :: t => startsWithL needle hay || hasSub needle t

/-! ### `normalize_column` (source lines 327-333, component ColumnNormalizer) -/

/-- `str.replace('_', ' ')`, character-wise (the source applies it right
after upper-casing, and `'_'` is a single character). -/
def toSpaceU (c : Char) : Char := if c == '_' then ' ' else c

/-- `normalize_column`: uppercase, replace `_` by space, strip accents
(NFD-decompose and drop combining marks), collapse whitespace runs
(`' '.join(col.split())`), and strip leading/trailing asterisks. -/
def normalize_column (s : String) : String :=
  String.mk (pyStrip (fun c => c == '*')
    (joinSp (pySplit (deaccent ((s.data.map upperChar).map toSpaceU)))))

/-! ### Python dictionaries as association lists -/

/-- Python dict assignment `m[k] = v`: overwrite in place if the key exists,
otherwise append (dict insertion order). -/
def dset {α β : Type} [DecidableEq α] (k : α) (v : β) : List (α × β) → List (α × β)
  | [] => [(k, v)]
  | (k', v') :: t => if k' = k then (k, v) :: t else (k', v') :: dset k v t

/-- Python dict read `m.get(k)`. -/
def dget {α β : Type} [DecidableEq α] (k : α) : List (α × β) → Option β
  | [] => none
  | (k', v') :: t => if k' = k then some v' else dget k t

/-- Distinct values in order of first appearance (models the key order of a
hash-table pass such as `Series.unique` / `value_counts` key extraction). -/
def firstDedup {α : Type} [DecidableEq α] (l : List α) : List α :=
  l.foldl (fun acc a => if a ∈ acc then acc else acc ++ [a]) []

/-! ### The tabular data model

A pandas DataFrame is modelled as a list of column labels plus a list of
rows; a cell is `Option String`, with `none` standing for a missing value
(pandas `NaN`), per the spec's note that the decoding library is an
external collaborator producing text-or-missing cells. -/

abbrev Cell := Option String

structure DataFrame where
  cols : List String
  rows : List (List Cell)
deriving Repr, DecidableEq

/-- `df[c]` for a (first occurrence of a) column label: the column's cells.
Out-of-range/absent labels give the empty column. -/
def DataFrame.col (df : DataFrame) (c : String) : List Cell :=
  match df.cols.indexOf? c with
  | some i => df.rows.map (fun r => r.getD i none)
  | none => []

/-! ### Canonical schema (source lines 340-365, components SchemaMapper/CanonicalSchema) -/

/-- `COLUMN_SYNONYMS`, in source (dict insertion) order. -/
def COLUMN_SYNONYMS : List (String × List String) :=
  [("DEPARTAMENTO",
    ["DEPARTAMENTO", "DEPTO", "DEPTO.", "DEPARTAMENTO*", "DEPARTAMENTO ",
     "DEPARTAMENTO  ", "DEPARTAMENTO*"]),
   ("MUNICIPIO",
    ["MUNICIPIO", "MUNICIPIO*", "MUNICIPIO ", "MUNICIPIO  "]),
   ("CODIGO DANE",
    ["CODIGO DANE", "COD DANE", "DANE", "CODIGO_DANE", "CODIGO DANE ",
     "CODIGO_DANE ", "CODIGO DANE*", "CODIGO_DANE*"]),
   ("ARMAS MEDIOS",
    ["ARMAS MEDIOS", "ARMA MEDIO", "ARMA", "MEDIO", "ARMA MEDIOS",
     "ARMAS_MEDIOS", "ARMA MEDIO ", "ARMA MEDIO  ", "ARMA MEDIO *"]),
   ("FECHA HECHO",
    ["FECHA HECHO", "FECHA", "FECHA_HECHO", "FECHA DEL HECHO", "FECHA HECHO ",
     "FECHA ", "FECHA  "]),
   ("GENERO",
    ["GENERO", "GÉNERO", "GENERO*", "GENERO ", "GENERO  "]),
   ("AGRUPA EDAD PERSONA",
    ["AGRUPA EDAD PERSONA", "EDAD", "EDAD PERSONA", "AGRUPA_EDAD_PERSONA",
     "AGRUPA EDAD PERSONA*", "*AGRUPA EDAD PERSONA", "*AGRUPA_EDAD_PERSONA",
     "AGRUPA EDAD PERSONA ", "AGRUPA_EDAD_PERSONA "]),
   ("CANTIDAD",
    ["CANTIDAD", "CANT", "CANTIDAD*", "CANTIDAD ", "CANTIDAD  "])]

/-- `key_columns = list(self.COLUMN_SYNONYMS.keys())` (line 383): the
CanonicalSchema, in order. -/
def KEY_COLUMNS : List String := COLUMN_SYNONYMS.map (fun p => p.1)

/-- `normalize_columns` (lines 335-338): normalize every column label. -/
def normalize_columns (df : DataFrame) : DataFrame :=
  { df with cols := df.cols.map normalize_column }

/-- `map_columns_to_standard` (lines 367-377): build `col_map` from original
label to standard name (a raw label is mapped when its normalized form is in
a canonical column's normalized synonym list; later canonical columns
overwrite an earlier mapping for the same original label), then rename. -/
def map_columns_to_standard (df : DataFrame) : DataFrame :=
  let normalized := df.cols.map normalize_column
  let colMap : List (String × String) :=
    COLUMN_SYNONYMS.foldl (fun m p =>
      normalized.enum.foldl (fun m' ic =>
        if ic.2 ∈ p.2.map normalize_column
        then dset (df.cols.getD ic.1 "") p.1 m'
        else m') m) []
  { df with cols := df.cols.map (fun c => (dget c colMap).getD c) }

/-- pandas `df.drop(columns=labels)`: remove every occurrence of each listed
label (keeping row data aligned by position via label/cell pairing). -/
def dropColumns (df : DataFrame) (labels : List String) : DataFrame :=
  ⟨df.cols.filter (fun c => !(labels.contains c)),
   df.rows.map (fun r =>
     ((df.cols.zip r).filter (fun p => !(labels.contains p.1))).map (fun p => p.2))⟩

/-- pandas `df[ks]` label selection: for each requested label, every stored
occurrence of that label, in request-then-storage order. -/
def selectCols (df : DataFrame) (ks : List String) : DataFrame :=
  ⟨ks.flatMap (fun k => df.cols.filter (fun c => c = k)),
   df.rows.map (fun r =>
     ks.flatMap (fun k => ((df.cols.zip r).filter (fun p => p.1 = k)).map (fun p => p.2)))⟩

/-- pandas `pd.concat(dfs, ignore_index=True, sort=False)`.  When every
frame has the same column list (always the case for a single frame), no
alignment happens and the columns — duplicate labels included — are kept
as they are, the rows simply stacked.  Otherwise each frame is re-indexed
to the union of the columns in first-appearance order, with `NaN` (`none`)
for a column absent from a frame; that alignment path is faithful for
frames whose own labels are unique (pandas raises `InvalidIndexError` when
it must align a frame with duplicate labels). -/
def concatFrames (dfs : List DataFrame) : DataFrame :=
  let first := dfs.headD ⟨[], []⟩
  if dfs.all (fun df => df.cols == first.cols) then
    ⟨first.cols, dfs.flatMap (fun df => df.rows)⟩
  else
    let allCols := firstDedup (dfs.flatMap (fun df => df.cols))
    ⟨allCols,
     dfs.flatMap (fun df => df.rows.map (fun r =>
       allCols.map (fun c =>
         match df.cols.indexOf? c with
         | some i => r.getD i none
         | none => none)))⟩

/-- Add a column at the end with the same constant cell in every row
(pandas `df[col] = ''` for a fresh label). -/
def addConstCol (df : DataFrame) (c : String) (v : Cell) : DataFrame :=
  ⟨df.cols ++ [c], df.rows.map (fun r => r ++ [v])⟩

/-- The unification tail of `unify_and_explore_by_folder` (lines 414-425,
component CategoryUnifier): given the per-file fragments of one category,
concatenate them, create each absent canonical column filled with `''`, and
select the canonical columns; with no fragments, the empty DataFrame
(`pd.DataFrame()`: zero rows and zero columns). -/
def unify_fragments (dfs : List DataFrame) : DataFrame :=
  if dfs.isEmpty then ⟨[], []⟩
  else
    let u := concatFrames dfs
    let u := KEY_COLUMNS.foldl (fun acc k =>
      if acc.cols.contains k then acc else addConstCol acc k (some "")) u
    selectCols u KEY_COLUMNS

/-! ### Input files and header detection (lines 99-130, component HeaderLocator) -/

/-- A raw spreadsheet grid: rows of optional cells, as yielded by the
decoding library (openpyxl / xlrd), `none` for an empty cell. -/
abbrev Grid := List (List Cell)

/-- One input spreadsheet file as the engine observes it:
`path` is the file path, `folder` the immediate parent folder name
(`os.path.basename(os.path.dirname(file_path))`, the category), `ext` the
lower-cased extension (`os.path.splitext(file_path)[1].lower()`), and
`cells` the outcome of decoding the workbook — `Except.error` models a file
that cannot be opened or read (both the header scan's loader and
`pd.read_excel` fail on such a file). -/
structure XFile where
  path : String
  folder : String
  ext : String
  cells : Except String Grid
deriving Repr

/-- `str(cell).strip().upper() if cell is not None else ""` (lines 112/122). -/
def cellHeaderStr : Cell → List Char
  | none => []
  | some s => (pyStrip isPySpace s.data).map upperChar

/-- A row matches when at least one keyword is a substring of at least one
stripped-and-uppercased cell (lines 113/123). -/
def rowMatches (kws : List String) (row : List Cell) : Bool :=
  row.any (fun cell => kws.any (fun kw => hasSub kw.data (cellHeaderStr cell)))

/-- The scanning loop: the index (offset by `k`) of the first matching row. -/
def scanRows (kws : List String) (k : Nat) : Grid → Option Nat
  | [] => none
  | r :: rs => if rowMatches kws r then some k else scanRows kws (k + 1) rs

/-- Default `search_keywords` (line 102). -/
def HEADER_KEYWORDS : List String :=
  ["DEPARTAMENTO", "MUNICIPIO", "FECHA", "FECHA HECHO", "CANTIDAD"]

/-- `find_header_row` (lines 99-130): for a supported extension, scan at most
`maxRows` rows of the decoded grid and return the zero-based index of the
first matching row, falling back to 10 when no row matches, when the file
cannot be decoded (the `except` branch), or when the extension is
unsupported.  The `.xlsx` (openpyxl) and `.xls` (xlrd) branches coincide
under this grid model. -/
def find_header_row (f : XFile) (kws : List String) (maxRows : Nat) : Nat :=
  if f.ext = ".xlsx" ∨ f.ext = ".xls" then
    match f.cells with
    | .error _ => 10
    | .ok grid => (scanRows kws 0 (grid.take maxRows)).getD 10
  else 10

/-- `find_header_row` with its default arguments (`max_rows=30`), as every
caller in the source invokes it. -/
def find_header_rowD (f : XFile) : Nat := find_header_row f HEADER_KEYWORDS 30

/-! ### Decoding and cell coercion (lines 138-147, component FileIngestor) -/

/-- Column label from a header cell: pandas names an empty header cell
`Unnamed: i`.  (Duplicate-label mangling is a decoder detail not modelled.) -/
def colName (i : Nat) : Cell → String
  | none => "Unnamed: " ++ toString i
  | some s => s

/-- `pd.read_excel(file, header=h, dtype=str)` on a decoded grid: row `h`
becomes the column labels, the rows after it become the data, padded or
truncated to the header's width, with `none` for missing cells. -/
def readExcel (grid : Grid) (h : Nat) : DataFrame :=
  let header := grid.getD h []
  let cols := header.enum.map (fun ic => colName ic.1 ic.2)
  let data := (grid.drop (h + 1)).map (fun r =>
    (r.take cols.length) ++ List.replicate (cols.length - r.length) none)
  ⟨cols, data⟩

/-- The `applymap` lambda `str(x) if x is not None else ""` (lines 147/400)
applied to one decoded cell.  A present cell is already a string under
`dtype=str`.  A missing cell reaches the lambda as pandas `NaN` — a float,
not Python `None` — so the `x is not None` test is true for it and
`str(nan)` yields the string `"nan"`; the lambda's `else ""` branch is
unreachable on the `read_excel` path. -/
def coerceCell : Cell → String
  | none => "nan"
  | some s => s

/-- `df.applymap(lambda x: str(x) if x is not None else "")`: every cell
becomes a (present) string; a missing cell becomes the string `"nan"`,
because pandas hands the lambda `NaN`, not `None`. -/
def applymapStr (df : DataFrame) : DataFrame :=
  ⟨df.cols, df.rows.map (fun r => r.map (fun c => some (coerceCell c)))⟩

/-! ### Run statistics (lines 16-26 and 132-216, components FileIngestor/StatsAggregator) -/

structure ColStat where
  unique_values : Nat
  missing_values : Nat
  data_type : String
deriving Repr, DecidableEq

/-- `self.stats` as initialised in `__init__` (lines 16-26).  Python dicts
become association lists; `data_types` is carried but never written, as in
the source. -/
structure Stats where
  total_files : Nat
  processed_files : Nat
  error_files : Nat
  yearly_stats : List (String × List (Nat × Nat))
  column_stats : List (String × List (String × ColStat))
  missing_values : List (String × List (String × Nat))
  data_types : List (String × String)
  records_per_file : List (String × Nat)
  total_records : Nat
deriving Repr, DecidableEq

def initStats : Stats := ⟨0, 0, 0, [], [], [], [], [], 0⟩

/-- Count of `none` cells in a column (`df[col].isnull().sum()`). -/
def countNone (l : List Cell) : Nat := l.countP (fun c => c.isNone)

/-- `analyze_dataframe` (lines 175-194): per-column unique/missing/dtype
stats recorded once per (category, column) (first write wins), and the
category's missing-value dict overwritten with the columns that currently
have missing cells. -/
def analyze_dataframe (s : Stats) (df : DataFrame) (crime : String) : Stats :=
  let cstats := (dget crime s.column_stats).getD []
  let cstats := df.cols.foldl (fun m col =>
    if (dget col m).isSome then m
    else dset col ⟨(firstDedup (df.col col)).length, countNone (df.col col), "object"⟩ m)
    cstats
  let missing := df.cols.foldl (fun m col =>
    let n := countNone (df.col col)
    if n > 0 then dset col n m else m) []
  { s with column_stats := dset crime cstats s.column_stats,
           missing_values := dset crime missing s.missing_values }

/-- `find_date_column` (lines 90-97): the first column whose lower-cased
label contains one of the date indicators. -/
def DATE_INDICATORS : List String := ["fecha", "año", "year", "date", "periodo", "mes"]

def find_date_column (df : DataFrame) : Option String :=
  df.cols.find? (fun col =>
    DATE_INDICATORS.any (fun ind => hasSub ind.data (col.data.map lowerChar)))

/-- `pd.to_datetime(x, errors='coerce').year` on one text cell, modelled as:
a value starting with four digits yields that four-digit year, anything
else is `NaT` (`none`).  The full datetime parser is the external pandas
library; this models the date shapes of this repository (`"YYYY-..."`). -/
def parseYearCell (c : Cell) : Option Nat :=
  match c with
  | none => none
  | some s =>
    let ds := s.data.take 4
    if ds.length = 4 ∧ ds.all (fun c => c.isDigit)
    then some (ds.foldl (fun n c => n * 10 + (c.toNat - '0'.toNat)) 0)
    else none

/-- Stable descending insertion by count: insert before the first entry
whose count is `≤` the new entry's count. -/
def insDesc {α : Type} (p : α × Nat) : List (α × Nat) → List (α × Nat)
  | [] => [p]
  | q :: t => if q.2 ≤ p.2 then p :: q :: t else q :: insDesc p t

/-- Stable sort by count, descending; equal counts keep their input order. -/
def sortDesc {α : Type} : List (α × Nat) → List (α × Nat)
  | [] => []
  | p :: t => insDesc p (sortDesc t)

/-- pandas `Series.value_counts(dropna=False)`: pair each distinct value (in
first-appearance order) with its count, then sort by count descending; the
sort is modelled as stable, so tied counts stay in first-appearance order. -/
def valueCounts {α : Type} [DecidableEq α] (l : List α) : List (α × Nat) :=
  sortDesc ((firstDedup l).map (fun k => (k, l.count k)))

/-- `analyze_dates` (lines 196-216): extract years (`NaT` entries are then
dropped by `value_counts()`, whose default drops nulls) and add the counts
into the category's per-year totals. -/
def analyze_dates (s : Stats) (df : DataFrame) (dateCol crime : String) : Stats :=
  let years := (df.col dateCol).map parseYearCell
  let yc := valueCounts (years.filterMap id)
  let cur := (dget crime s.yearly_stats).getD []
  let cur := yc.foldl (fun m p => dset p.1 ((dget p.1 m).getD 0 + p.2) m) cur
  { s with yearly_stats := dset crime cur s.yearly_stats }

/-- `analyze_file` (lines 132-173, component FileIngestor): find the header
row, dispatch on the extension (unsupported → error counter), decode
(decode failure → the `except` branch → error counter), coerce all cells to
strings, record the row count, run the per-file statistics and the optional
date analysis, and count the file as processed.  Returns the source's
`True`/`False` along with the updated statistics. -/
def analyze_file (s : Stats) (f : XFile) : Bool × Stats :=
  let header := find_header_rowD f
  if f.ext = ".xlsx" ∨ f.ext = ".xls" then
    match f.cells with
    | .error _ => (false, { s with error_files := s.error_files + 1 })
    | .ok grid =>
      let df := applymapStr (readExcel grid header)
      let crime := f.folder
      let n := df.rows.length
      let s := { s with records_per_file := dset f.path n s.records_per_file,
                        total_records := s.total_records + n }
      let s := analyze_dataframe s df crime
      let s := match find_date_column df with
        | some dc => analyze_dates s df dc crime
        | none => s
      (true, { s with processed_files := s.processed_files + 1 })
  else (false, { s with error_files := s.error_files + 1 })

/-- The main processing loop (lines 516-518): analyze each file in
discovery order, ignoring the per-file return value. -/
def runFiles (s : Stats) (fs : List XFile) : Stats :=
  fs.foldl (fun s f => (analyze_file s f).2) s

/-- The number of data rows `analyze_file` would record for a readable file
(row count of the decoded frame; `applymap` preserves it). -/
def fileRecordCount (f : XFile) : Nat :=
  match f.cells with
  | .ok grid => (readExcel grid (find_header_rowD f)).rows.length
  | .error _ => 0

/-- A file that `analyze_file` ingests successfully: supported extension and
readable workbook. -/
def ingestOk (f : XFile) : Bool :=
  (f.ext == ".xlsx" || f.ext == ".xls") &&
    (match f.cells with | .ok _ => true | .error _ => false)

/-! ### Per-file fragment construction inside unification (lines 390-411) -/

/-- The drop list of lines 404-409: columns whose normalized form equals the
normalized form of a canonical column without being literally that
canonical name. -/
def colsToDrop (df : DataFrame) : List String :=
  df.cols.filter (fun col =>
    KEY_COLUMNS.any (fun std =>
      normalize_column col == normalize_column std && col != std))

/-- One file's fragment inside `unify_and_explore_by_folder` (lines 390-411,
CategoryFragment construction): unsupported extensions are silently skipped
(line 399 `continue`), a decode failure is caught and skipped (line 412),
otherwise the frame is decoded at the detected header row, coerced to
strings, its labels normalized and mapped to the canonical names, and the
near-duplicate canonical variants dropped. -/
def fragmentOfFile (f : XFile) : Option DataFrame :=
  let header := find_header_rowD f
  if f.ext = ".xlsx" ∨ f.ext = ".xls" then
    match f.cells with
    | .error _ => none
    | .ok grid =>
      let df := applymapStr (readExcel grid header)
      let df := normalize_columns df
      let df := map_columns_to_standard df
      let df := dropColumns df (colsToDrop df)
      some df
  else none

/-! ### Deep exploration (lines 427-448, component ExplorationEngine) -/

/-- The exploration report of `deep_exploration`, one field per dict key the
source builds. -/
structure Exploration where
  shape : Nat × Nat
  columnas : List String
  nulos_por_columna : List (String × Nat)
  faltantes_por_columna : List (String × Nat)
  tipos : List (String × String)
  conteo_por_columna : List (String × Nat)
  unicos_por_columna : List (String × Nat)
  top_valores : List (String × List (Cell × Nat))
  distribucion_anio : Option (List (Cell × Nat))
deriving Repr, DecidableEq

/-- Stable ascending insertion for `sort_index()` over cell keys: `none`
(NaN) sorts last, string keys by lexicographic order. -/
def cellLE : Cell → Cell → Bool
  | none, none => true
  | none, some _ => false
  | some _, none => true
  | some a, some b => a ≤ b

def insAsc (p : Cell × Nat) : List (Cell × Nat) → List (Cell × Nat)
  | [] => [p]
  | q :: t => if cellLE p.1 q.1 then p :: q :: t else q :: insAsc p t

/-- pandas `.sort_index()` on a value-counts result. -/
def sortIndexCells : List (Cell × Nat) → List (Cell × Nat)
  | [] => []
  | p :: t => insAsc p (sortIndexCells t)

/-- Build one per-column dict of `deep_exploration`: iterate the key columns
and record an entry for those present in the frame. -/
def perColumn {β : Type} (df : DataFrame) (keyCols : List String)
    (f : List Cell → β) : List (String × β) :=
  keyCols.foldl (fun m col =>
    if df.cols.contains col then dset col (f (df.col col)) m else m) []

/-- `deep_exploration` (lines 427-448): shape, per key column the null
count, the empty-string count, the dtype, the non-null count, the distinct
count (nulls included), the top five most frequent values, and — only when
some key column's name contains the literal substring `'AÑO'` or `'YEAR'` —
that column's year distribution sorted by index. -/
def deep_exploration (df : DataFrame) (keyCols : List String) : Exploration :=
  let yearCol := keyCols.find? (fun c =>
    hasSub "AÑO".data c.data || hasSub "YEAR".data c.data)
  { shape := (df.rows.length, df.cols.length)
    columnas := df.cols
    nulos_por_columna := perColumn df keyCols countNone
    faltantes_por_columna := perColumn df keyCols (fun l => l.count (some ""))
    tipos := perColumn df keyCols (fun _ => "object")
    conteo_por_columna := perColumn df keyCols (fun l => l.countP (fun c => c.isSome))
    unicos_por_columna := perColumn df keyCols (fun l => (firstDedup l).length)
    top_valores := perColumn df keyCols (fun l => (valueCounts l).take 5)
    distribucion_anio :=
      match yearCol with
      | some yc =>
        if df.cols.contains yc then some (sortIndexCells (valueCounts (df.col yc)))
        else none
      | none => none }

/-! ### Auxiliary definitions used by the verification -/

/-- Cell of a row grid at row `i`, column `j` (out-of-range reads `none`). -/
def at2 (rs : List (List Cell)) (i j : Nat) : Cell := (rs.getD i []).getD j none

/-- Concrete three-file scenario for the isolation claim: readable, then
malformed, then readable. -/
def c2file1 : XFile :=
  ⟨"Data/HURTO/a.xlsx", "HURTO", ".xlsx",
   .ok [[some "DEPARTAMENTO", some "CANTIDAD"], [some "x", some "1"], [some "y", some "2"]]⟩

def c2file2 : XFile := ⟨"Data/HURTO/b.xlsx", "HURTO", ".xlsx", .error "unreadable bytes"⟩

def c2file3 : XFile :=
  ⟨"Data/HURTO/c.xlsx", "HURTO", ".xlsx",
   .ok [[some "DEPARTAMENTO", some "CANTIDAD"], [some "z", some "3"]]⟩

/-- A file whose raw header holds two variants of the event-date column:
`FECHA` and `FECHA_HECHO` are both synonyms of `FECHA HECHO`, so the
rename step maps both onto the same canonical name and the drop step
(which only removes labels *different* from the canonical one) keeps both. -/
def c1dupFile : XFile :=
  ⟨"Data/HURTO/dup.xlsx", "HURTO", ".xlsx",
   .ok [[some "FECHA", some "FECHA_HECHO"],
        [some "2020-01-05", some "2020-06-01"]]⟩

/-- The fragment `fragmentOfFile` produces for `c1dupFile`: two duplicate
canonical `FECHA HECHO` columns. -/
def c1dupFrag : DataFrame :=
  ⟨["FECHA HECHO", "FECHA HECHO"], [[some "2020-01-05", some "2020-06-01"]]⟩

/-- A character is *stable* when a second normalization pass leaves it
alone: upper-casing, underscore replacement and accent stripping are all
the identity on it. -/
def stableCharB (c : Char) : Bool :=
  upperChar c == c && toSpaceU c == c &&
    (nfdChar c == [c]) && !(isMn c)

/-- A predicate asserting word-list shape (nonempty, whitespace-free words). -/
def WordList (ws : List (List Char)) : Prop :=
  ∀ w ∈ ws, w ≠ [] ∧ ∀ c ∈ w, isPySpace c = false

/-- The relation "not two adjacent whitespace characters". -/
def NoTwoSp (a b : Char) : Prop := ¬ (isPySpace a = true ∧ isPySpace b = true)

/-- The first-pass result neither starts nor ends with whitespace
(the condition under which a second normalization pass is the identity). -/
def noEdgeSpaceB (s : String) : Bool :=
  s.data.head?.all (fun c => !isPySpace c) && s.data.getLast?.all (fun c => !isPySpace c)

/-! ## Supporting lemmas -/

theorem analyze_dataframe_processed (s : Stats) (df : DataFrame) (c : String) :
    (analyze_dataframe s df c).processed_files = s.processed_files := rfl

theorem analyze_dataframe_error (s : Stats) (df : DataFrame) (c : String) :
    (analyze_dataframe s df c).error_files = s.error_files := rfl

theorem analyze_dataframe_total (s : Stats) (df : DataFrame) (c : String) :
    (analyze_dataframe s df c).total_records = s.total_records := rfl

theorem analyze_dates_processed (s : Stats) (df : DataFrame) (dc c : String) :
    (analyze_dates s df dc c).processed_files = s.processed_files := rfl

theorem analyze_dates_error (s : Stats) (df : DataFrame) (dc c : String) :
    (analyze_dates s df dc c).error_files = s.error_files := rfl

theorem analyze_dates_total (s : Stats) (df : DataFrame) (dc c : String) :
    (analyze_dates s df dc c).total_records = s.total_records := rfl

/-! ## Claims -/

/-- **C9** (code bug).  The CanonicalSchema does contain the event-date
column `FECHA HECHO`, yet for every CategoryTable the exploration report
carries no year distribution: the year-column detector of
`deep_exploration` looks for the literal substrings `'AÑO'` / `'YEAR'` in
the canonical column names, and no canonical column name contains either,
so the `distribucion_año` entry is never produced — contradicting the
spec's promise of a year→count distribution whenever the event-date
canonical column exists. -/
theorem claim_C9_no_year_distribution :
    "FECHA HECHO" ∈ KEY_COLUMNS ∧
    ∀ df : DataFrame, (deep_exploration df KEY_COLUMNS).distribucion_anio = none := by
  refine ⟨by decide, fun df => ?_⟩
  rfl

/-- **C10** (confirmed).  Every `analyze_file` call either returns `True`
having incremented exactly the processed-file counter by one, or returns
`False` having incremented exactly the error-file counter by one — never
both, never neither. -/
theorem claim_C10_exactly_one_counter (s : Stats) (f : XFile) :
    ((analyze_file s f).1 = true ∧
      (analyze_file s f).2.processed_files = s.processed_files + 1 ∧
      (analyze_file s f).2.error_files = s.error_files) ∨
    ((analyze_file s f).1 = false ∧
      (analyze_file s f).2.processed_files = s.processed_files ∧
      (analyze_file s f).2.error_files = s.error_files + 1) := by
  unfold analyze_file
  by_cases hx : f.ext = ".xlsx" ∨ f.ext = ".xls"
  · rw [if_pos hx]
    rcases hc : f.cells with e | grid
    · right; exact ⟨rfl, rfl, rfl⟩
    · left
      refine ⟨rfl, ?_, ?_⟩ <;>
        · simp only []
          cases find_date_column (applymapStr (readExcel grid (find_header_rowD f))) <;>
            simp [analyze_dates_processed, analyze_dates_error,
              analyze_dataframe_processed, analyze_dataframe_error]
  · rw [if_neg hx]
    right; exact ⟨rfl, rfl, rfl⟩

/-- **C5** (confirmed).  For a file whose extension is not `.xlsx`/`.xls`:
the header locator returns immediately without scanning any rows — its
result is the constant 10, irrespective of the file's contents, its
keywords or its scan depth — and `analyze_file` counts the file as an
error, returns `False`, and leaves every other statistic untouched (in
particular the file is never decoded with a guessed header row). -/
theorem claim_C5_unsupported_extension (f : XFile) (kws : List String)
    (maxRows : Nat) (s : Stats) (h : ¬ (f.ext = ".xlsx" ∨ f.ext = ".xls")) :
    find_header_row f kws maxRows = 10 ∧
    analyze_file s f = (false, { s with error_files := s.error_files + 1 }) := by
  constructor
  · unfold find_header_row; rw [if_neg h]
  · unfold analyze_file; rw [if_neg h]

theorem claim_C5_witness :
    (¬ ((".csv" : String) = ".xlsx" ∨ (".csv" : String) = ".xls")) ∧
    find_header_row ⟨"a.csv", "HURTO", ".csv", .ok [[some "DEPARTAMENTO"]]⟩
      HEADER_KEYWORDS 30 = 10 ∧
    analyze_file initStats ⟨"a.csv", "HURTO", ".csv", .ok [[some "DEPARTAMENTO"]]⟩
      = (false, { initStats with error_files := 1 }) :=
  ⟨by decide,
   (claim_C5_unsupported_extension ⟨"a.csv", "HURTO", ".csv", .ok [[some "DEPARTAMENTO"]]⟩
      HEADER_KEYWORDS 30 initStats (by decide)).1,
   (claim_C5_unsupported_extension ⟨"a.csv", "HURTO", ".csv", .ok [[some "DEPARTAMENTO"]]⟩
      HEADER_KEYWORDS 30 initStats (by decide)).2⟩

/-- **C7** (counterexample).  The claim's three example inputs do not all
normalize to the same string: `normalize("  Depto_*")` keeps a trailing
space, because the underscore becomes a space, whitespace collapsing then
leaves `"DEPTO *"`, and the final asterisk strip exposes the space again. -/
theorem claim_C7_cex :
    normalize_column "  Depto_*" ≠ normalize_column "DEPTO" := by decide

/-- **C7** (corrected).  ColumnNormalizer is insensitive to accents, case,
surrounding whitespace and asterisk markers — `normalize("  Depto*")`,
`normalize("DEPTO")` and `normalize("Dépto ")` all yield `"DEPTO"` — but an
underscore directly before a stripped asterisk leaves a residual trailing
space: `normalize("  Depto_*") = "DEPTO "`. -/
theorem claim_C7_insensitivity :
    normalize_column "  Depto*" = "DEPTO" ∧
    normalize_column "DEPTO" = "DEPTO" ∧
    normalize_column "Dépto " = "DEPTO" ∧
    normalize_column "Depto_suffix" = "DEPTO SUFFIX" ∧
    normalize_column "  Depto_*" = "DEPTO " := by
  refine ⟨by decide, by decide, by decide, by decide, by decide⟩

/-! Lemmas for the header-scan characterization (C6). -/

theorem scanRows_found (kws : List String) :
    ∀ (l : Grid) (k i : Nat), i < l.length →
      rowMatches kws (l.getD i []) = true →
      (∀ j, j < i → rowMatches kws (l.getD j []) = false) →
      scanRows kws k l = some (k + i) := by
  intro l
  induction l with
  | nil => intro k i hi; simp at hi
  | cons r rs ih =>
    intro k i hi hm hpre
    cases i with
    | zero =>
      rw [List.getD_cons_zero] at hm
      simp [scanRows, hm]
    | succ i' =>
      have h0 : rowMatches kws r = false := by
        have := hpre 0 (Nat.succ_pos _)
        rwa [List.getD_cons_zero] at this
      simp only [scanRows, h0, Bool.false_eq_true, if_false]
      have hi' : i' < rs.length := by
        rw [List.length_cons] at hi; omega
      have := ih (k + 1) i' hi' (by rwa [List.getD_cons_succ] at hm)
        (fun j hj => by
          have := hpre (j + 1) (by omega)
          rwa [List.getD_cons_succ] at this)
      rw [this]; congr 1; omega

theorem scanRows_none (kws : List String) :
    ∀ (l : Grid) (k : Nat),
      (∀ i, i < l.length → rowMatches kws (l.getD i []) = false) →
      scanRows kws k l = none := by
  intro l
  induction l with
  | nil => intro k _; rfl
  | cons r rs ih =>
    intro k h
    have h0 : rowMatches kws r = false := by
      have := h 0 (Nat.succ_pos _)
      rwa [List.getD_cons_zero] at this
    simp only [scanRows, h0, Bool.false_eq_true, if_false]
    refine ih (k + 1) (fun i hi => ?_)
    have := h (i + 1) (by rw [List.length_cons]; omega)
    rwa [List.getD_cons_succ] at this

theorem getD_take (l : Grid) (m i : Nat) (h : i < m) :
    (l.take m).getD i [] = l.getD i [] := by
  show ((l.take m).get? i).getD [] = (l.get? i).getD []
  rw [List.get?_eq_getElem?, List.get?_eq_getElem?, List.getElem?_take_of_lt h]

/-- **C6** (confirmed).  For every supported spreadsheet file, the header
locator returns the zero-based index of the first row within the scan depth
whose stripped-and-uppercased cells contain some keyword as a substring of
some cell, and returns the fixed fallback 10 when no scanned row matches. -/
theorem claim_C6_header_row (f : XFile) (grid : Grid) (kws : List String) (m : Nat)
    (hext : f.ext = ".xlsx" ∨ f.ext = ".xls") (hcells : f.cells = .ok grid) :
    (∀ i, i < m → i < grid.length →
      rowMatches kws (grid.getD i []) = true →
      (∀ j, j < i → rowMatches kws (grid.getD j []) = false) →
      find_header_row f kws m = i) ∧
    ((∀ i, i < m → i < grid.length → rowMatches kws (grid.getD i []) = false) →
      find_header_row f kws m = 10) := by
  constructor
  · intro i him hil hm hpre
    unfold find_header_row
    rw [if_pos hext, hcells]
    show (scanRows kws 0 (grid.take m)).getD 10 = i
    have hlen : i < (grid.take m).length := by
      simp [List.length_take]; omega
    rw [scanRows_found kws (grid.take m) 0 i hlen
      (by rwa [getD_take _ _ _ him])
      (fun j hj => by rw [getD_take _ _ _ (by omega)]; exact hpre j hj)]
    simp
  · intro hnone
    unfold find_header_row
    rw [if_pos hext, hcells]
    show (scanRows kws 0 (grid.take m)).getD 10 = 10
    rw [scanRows_none kws (grid.take m) 0 (fun i hi => by
      have hi' : i < m := by
        have := hi; simp [List.length_take] at this; omega
      have hil : i < grid.length := by
        have := hi; simp [List.length_take] at this; omega
      rw [getD_take _ _ _ hi']
      exact hnone i hi' hil)]
    rfl

theorem claim_C6_witness :
    find_header_row ⟨"a.xlsx", "H", ".xlsx",
        .ok [[some "junk"], [none, some "  cantidad de casos"]]⟩ HEADER_KEYWORDS 30 = 1 ∧
    find_header_row ⟨"b.xlsx", "H", ".xlsx",
        .ok [[some "junk"], [some "other"]]⟩ HEADER_KEYWORDS 30 = 10 :=
  ⟨(claim_C6_header_row _ [[some "junk"], [none, some "  cantidad de casos"]]
      HEADER_KEYWORDS 30 (by decide) rfl).1 1 (by decide) (by decide) (by decide)
      (by intro j hj; interval_cases j <;> decide),
   (claim_C6_header_row _ [[some "junk"], [some "other"]]
      HEADER_KEYWORDS 30 (by decide) rfl).2
      (by intro i _ hi; interval_cases i <;> decide)⟩

/-- **C3** (code bug).  After `FileIngestor`'s decode-and-coerce step every
cell is indeed a present string — but a cell missing in the decoded frame
becomes the string `"nan"`, not the empty string: the `applymap` lambda of
lines 147/400 only special-cases Python `None`, while
`read_excel(dtype=str)` delivers `NaN` for a blank cell, and `str(nan)` is
`'nan'`.  Shown at a frame whose single data row is shorter than the
header, leaving its cell missing. -/
theorem claim_C3_missing_becomes_nan :
    (∀ (grid : Grid) (h : Nat),
      ((applymapStr (readExcel grid h)).rows.all (fun r => r.all (fun c => c.isSome))) = true) ∧
    at2 (readExcel [[some "DEPARTAMENTO"], []] 0).rows 0 0 = none ∧
    at2 (applymapStr (readExcel [[some "DEPARTAMENTO"], []] 0)).rows 0 0 = some "nan" ∧
    some "nan" ≠ (some "" : Cell) := by
  refine ⟨?_, by decide, by decide, by decide⟩
  intro grid h
  rw [List.all_eq_true]
  intro r hr
  rw [List.all_eq_true]
  intro c hc
  rcases List.mem_map.mp hr with ⟨r0, _, rfl⟩
  rcases List.mem_map.mp hc with ⟨c0, _, rfl⟩
  rfl

/-! Lemmas on `analyze_file`'s two paths (C2). -/

theorem analyze_file_fail (s : Stats) (f : XFile) (h : ingestOk f = false) :
    analyze_file s f = (false, { s with error_files := s.error_files + 1 }) := by
  unfold analyze_file
  by_cases hx : f.ext = ".xlsx" ∨ f.ext = ".xls"
  · rw [if_pos hx]
    rcases hc : f.cells with e | grid
    · rfl
    · exfalso
      rcases hx with hx | hx <;> simp [ingestOk, hx, hc] at h
  · rw [if_neg hx]

theorem ingestOk_elim (f : XFile) (h : ingestOk f = true) :
    (f.ext = ".xlsx" ∨ f.ext = ".xls") ∧ ∃ g, f.cells = .ok g := by
  unfold ingestOk at h
  rcases hc : f.cells with e | g
  · rw [hc] at h; simp at h
  · rw [hc] at h
    simp only [Bool.and_true, Bool.or_eq_true, beq_iff_eq] at h
    exact ⟨h, g, rfl⟩

theorem applymapStr_length (d : DataFrame) :
    (applymapStr d).rows.length = d.rows.length := by
  simp [applymapStr]

theorem analyze_file_ok_fields (s : Stats) (f : XFile) (h : ingestOk f = true) :
    (analyze_file s f).1 = true ∧
    (analyze_file s f).2.processed_files = s.processed_files + 1 ∧
    (analyze_file s f).2.error_files = s.error_files ∧
    (analyze_file s f).2.total_records = s.total_records + fileRecordCount f := by
  obtain ⟨hx, g, hc⟩ := ingestOk_elim f h
  have hcount : fileRecordCount f = (readExcel g (find_header_rowD f)).rows.length := by
    simp [fileRecordCount, hc]
  unfold analyze_file
  rw [if_pos hx, hc]
  refine ⟨rfl, ?_, ?_, ?_⟩ <;>
  · simp only []
    cases find_date_column (applymapStr (readExcel g (find_header_rowD f))) <;>
      simp [analyze_dates_processed, analyze_dates_error, analyze_dates_total,
        analyze_dataframe_processed, analyze_dataframe_error, analyze_dataframe_total,
        applymapStr_length, hcount]

/-- A success-path `analyze_file` call never reads the error counter: it
commutes with any overwrite of `error_files`. -/
theorem analyze_file_err_comm (s : Stats) (e : Nat) (f : XFile) (h : ingestOk f = true) :
    (analyze_file { s with error_files := e } f).2
      = { (analyze_file s f).2 with error_files := e } := by
  obtain ⟨hx, g, hc⟩ := ingestOk_elim f h
  unfold analyze_file
  rw [if_pos hx, hc]
  simp only []
  cases find_date_column (applymapStr (readExcel g (find_header_rowD f))) <;>
    · unfold analyze_dataframe analyze_dates
      simp [hx]

/-- **C2** (confirmed).  A file whose ingestion fails only bumps the
error-file counter — the run over `[f1, f2, f3]` with `f2` malformed equals
the run over `[f1, f3]` save for one extra error, so `f2` contributes
nothing to any statistic — and such a run from a fresh accumulator records
exactly 2 processed files, 1 error file, and a record total equal to the
row counts of files 1 and 3. -/
theorem claim_C2_error_isolation (f1 f2 f3 : XFile)
    (h1 : ingestOk f1 = true) (h2 : ingestOk f2 = false) (h3 : ingestOk f3 = true) :
    runFiles initStats [f1, f2, f3]
        = { runFiles initStats [f1, f3] with
            error_files := (runFiles initStats [f1, f3]).error_files + 1 } ∧
    (runFiles initStats [f1, f2, f3]).processed_files = 2 ∧
    (runFiles initStats [f1, f2, f3]).error_files = 1 ∧
    (runFiles initStats [f1, f2, f3]).total_records
      = fileRecordCount f1 + fileRecordCount f3 := by
  have hrun : runFiles initStats [f1, f2, f3]
      = (analyze_file (analyze_file (analyze_file initStats f1).2 f2).2 f3).2 := rfl
  have hrun2 : runFiles initStats [f1, f3]
      = (analyze_file (analyze_file initStats f1).2 f3).2 := rfl
  set s1 := (analyze_file initStats f1).2 with hs1
  have hf2 : (analyze_file s1 f2).2 = { s1 with error_files := s1.error_files + 1 } := by
    rw [analyze_file_fail _ _ h2]
  have hmain : runFiles initStats [f1, f2, f3]
      = { (analyze_file s1 f3).2 with error_files := s1.error_files + 1 } := by
    rw [hrun, hf2, analyze_file_err_comm s1 (s1.error_files + 1) f3 h3]
  have h1f := analyze_file_ok_fields initStats f1 h1
  have h3f := analyze_file_ok_fields s1 f3 h3
  have hs1p : s1.processed_files = 1 := h1f.2.1
  have hs1e : s1.error_files = 0 := h1f.2.2.1
  have hs1t : s1.total_records = fileRecordCount f1 := by
    rw [hs1]
    have := h1f.2.2.2
    simpa [initStats] using this
  refine ⟨?_, ?_, ?_, ?_⟩
  · rw [hmain, hrun2, h3f.2.2.1]
  · rw [hmain]
    show (analyze_file s1 f3).2.processed_files = 2
    rw [h3f.2.1, hs1p]
  · rw [hmain]
    show s1.error_files + 1 = 1
    rw [hs1e]
  · rw [hmain]
    show (analyze_file s1 f3).2.total_records = fileRecordCount f1 + fileRecordCount f3
    rw [h3f.2.2.2, hs1t]

theorem claim_C2_witness :
    (runFiles initStats [c2file1, c2file2, c2file3]).processed_files = 2 ∧
    (runFiles initStats [c2file1, c2file2, c2file3]).error_files = 1 ∧
    (runFiles initStats [c2file1, c2file2, c2file3]).total_records
      = fileRecordCount c2file1 + fileRecordCount c2file3 :=
  (claim_C2_error_isolation c2file1 c2file2 c2file3
    (by decide) (by decide) (by decide)).2

/-! Lemmas for the CategoryUnifier column invariant (C1). -/

theorem firstDedup_fold_nodup {α : Type} [DecidableEq α] :
    ∀ (l acc : List α), acc.Nodup →
      (l.foldl (fun acc a => if a ∈ acc then acc else acc ++ [a]) acc).Nodup := by
  intro l
  induction l with
  | nil => intro acc h; exact h
  | cons a t ih =>
    intro acc h
    simp only [List.foldl_cons]
    by_cases ha : a ∈ acc
    · rw [if_pos ha]; exact ih acc h
    · rw [if_neg ha]
      exact ih (acc ++ [a]) (by simp [List.nodup_append, h, ha])

theorem firstDedup_nodup {α : Type} [DecidableEq α] (l : List α) :
    (firstDedup l).Nodup :=
  firstDedup_fold_nodup l [] List.nodup_nil

/-- The padding fold of `unify_fragments` only ever appends fresh labels. -/
theorem padFold_nodup :
    ∀ (ks : List String) (u : DataFrame), u.cols.Nodup →
      ((ks.foldl (fun acc k =>
        if acc.cols.contains k then acc else addConstCol acc k (some "")) u).cols).Nodup := by
  intro ks
  induction ks with
  | nil => intro u h; exact h
  | cons k t ih =>
    intro u h
    simp only [List.foldl_cons]
    by_cases hk : u.cols.contains k
    · rw [if_pos hk]; exact ih u h
    · rw [if_neg hk]
      refine ih _ ?_
      have hk' : k ∉ u.cols := by simpa using hk
      simp [addConstCol, List.nodup_append, h, hk']

/-- After the padding fold every requested label is present. -/
theorem padFold_mem :
    ∀ (ks : List String) (u : DataFrame) (k : String), k ∈ ks ∨ k ∈ u.cols →
      k ∈ ((ks.foldl (fun acc k =>
        if acc.cols.contains k then acc else addConstCol acc k (some "")) u).cols) := by
  intro ks
  induction ks with
  | nil =>
    intro u k h
    rcases h with h | h
    · simp at h
    · exact h
  | cons k' t ih =>
    intro u k h
    simp only [List.foldl_cons]
    by_cases hk : u.cols.contains k'
    · rw [if_pos hk]
      refine ih u k ?_
      rcases h with h | h
      · rcases List.mem_cons.mp h with rfl | h'
        · exact Or.inr (by simpa using hk)
        · exact Or.inl h'
      · exact Or.inr h
    · rw [if_neg hk]
      refine ih _ k ?_
      rcases h with h | h
      · rcases List.mem_cons.mp h with rfl | h'
        · exact Or.inr (by simp [addConstCol])
        · exact Or.inl h'
      · exact Or.inr (by simp [addConstCol, h])

theorem filter_eq_singleton {l : List String} {k : String}
    (hn : l.Nodup) (hm : k ∈ l) : l.filter (fun c => c = k) = [k] := by
  induction l with
  | nil => simp at hm
  | cons a t ih =>
    have hn' := List.nodup_cons.mp hn
    rcases List.mem_cons.mp hm with rfl | hmt
    · have : t.filter (fun c => c = k) = [] := by
        rw [List.filter_eq_nil_iff]
        intro x hx
        simp only [decide_eq_true_eq]
        intro hxa
        exact hn'.1 (hxa ▸ hx)
      simp [List.filter_cons, this]
    · have hak : ¬ (a = k) := fun hak => hn'.1 (hak ▸ hmt)
      simp only [List.filter_cons, decide_eq_true_eq]
      rw [if_neg hak]
      exact ih hn'.2 hmt

theorem selectCols_cols (df : DataFrame) (ks : List String)
    (hn : df.cols.Nodup) (hall : ∀ k ∈ ks, k ∈ df.cols) :
    (selectCols df ks).cols = ks := by
  show ks.flatMap (fun k => df.cols.filter (fun c => c = k)) = ks
  induction ks with
  | nil => rfl
  | cons k t ih =>
    rw [List.flatMap_cons, filter_eq_singleton hn (hall k (List.mem_cons_self k t)),
      ih (fun k' hk' => hall k' (List.mem_cons_of_mem k hk'))]
    rfl

/-- Concatenation preserves label uniqueness: with identical column lists
the first frame's (unique) labels are kept; otherwise the aligned union is
deduplicated by construction. -/
theorem concatFrames_nodup (dfs : List DataFrame) (hne : dfs ≠ [])
    (h : ∀ df ∈ dfs, df.cols.Nodup) : (concatFrames dfs).cols.Nodup := by
  cases dfs with
  | nil => exact absurd rfl hne
  | cons d t =>
    unfold concatFrames
    by_cases hall : (d :: t).all (fun df => df.cols == ((d :: t).headD ⟨[], []⟩).cols) = true
    · rw [if_pos hall]
      exact h d (List.mem_cons_self d t)
    · rw [if_neg hall]
      exact firstDedup_nodup _

/-- **C1** (corrected, counterexample `claim_C1_cex`).  For every nonempty
list of successfully ingested fragments in which no fragment carries a
duplicate column label, the CategoryTable has exactly the CanonicalSchema
columns, in CanonicalSchema order.  The invariant fails outside that
domain: with zero fragments the result is `pd.DataFrame()` — zero rows and
zero columns, not the canonical ones — and a reachable fragment holding
two raw variants of the same canonical column keeps both after renaming,
so its duplicate canonical columns survive selection. -/
theorem claim_C1_canonical_columns :
    (∀ dfs : List DataFrame, dfs ≠ [] → (∀ df ∈ dfs, df.cols.Nodup) →
      (unify_fragments dfs).cols = KEY_COLUMNS) ∧
    unify_fragments [] = ⟨[], []⟩ := by
  constructor
  · intro dfs hne hnodup
    unfold unify_fragments
    rw [if_neg (by simp [hne])]
    refine selectCols_cols _ _ ?_ ?_
    · exact padFold_nodup KEY_COLUMNS (concatFrames dfs) (concatFrames_nodup dfs hne hnodup)
    · intro k hk
      exact padFold_mem KEY_COLUMNS (concatFrames dfs) k (Or.inl hk)
  · rfl

/-- **C1** (counterexample).  The invariant fails in two ways.  With zero
successfully ingested fragments the CategoryTable has no columns at all.
And a file whose raw header carries both `FECHA` and `FECHA_HECHO` is
ingested into a fragment with two `FECHA HECHO` columns (both synonyms are
renamed to the canonical name, and the drop step only removes labels that
*differ* from it), after which concatenation and `df[key_columns]`
selection keep both occurrences: a nine-column CategoryTable. -/
theorem claim_C1_cex :
    (unify_fragments []).cols ≠ KEY_COLUMNS ∧
    fragmentOfFile c1dupFile = some c1dupFrag ∧
    (unify_fragments [c1dupFrag]).cols
      = ["DEPARTAMENTO", "MUNICIPIO", "CODIGO DANE", "ARMAS MEDIOS",
         "FECHA HECHO", "FECHA HECHO", "GENERO", "AGRUPA EDAD PERSONA", "CANTIDAD"] ∧
    (unify_fragments [c1dupFrag]).cols ≠ KEY_COLUMNS := by
  exact ⟨by decide, by decide, by decide, by decide⟩

theorem claim_C1_witness :
    (unify_fragments [⟨["DEPARTAMENTO", "EXTRA"], [[some "a", some "b"]]⟩]).cols
      = KEY_COLUMNS :=
  (claim_C1_canonical_columns).1 [⟨["DEPARTAMENTO", "EXTRA"], [[some "a", some "b"]]⟩]
    (by decide) (by intro df hdf; simp at hdf; rw [hdf]; decide)

/-! Dictionary lemmas and the top-5 report (C8). -/

theorem dget_dset_self {α β : Type} [DecidableEq α] (k : α) (v : β) :
    ∀ m : List (α × β), dget k (dset k v m) = some v := by
  intro m
  induction m with
  | nil => simp [dset, dget]
  | cons p t ih =>
    by_cases hp : p.1 = k
    · simp [dset, dget, hp]
    · simpa [dset, dget, hp] using ih

theorem dget_dset_ne {α β : Type} [DecidableEq α] (q k : α) (v : β) (h : k ≠ q) :
    ∀ m : List (α × β), dget q (dset k v m) = dget q m := by
  intro m
  induction m with
  | nil => simp [dset, dget, h]
  | cons p t ih =>
    by_cases hp : p.1 = k
    · simp [dset, dget, hp, h]
    · by_cases hq : p.1 = q
      · simp [dset, dget, hp, hq, Ne.symm h]
      · simpa [dset, dget, hp, hq] using ih

theorem perColumn_skip {β : Type} (df : DataFrame) (f : List Cell → β) (col : String) :
    ∀ (ks : List String) (acc : List (String × β)), col ∉ ks →
      dget col (ks.foldl (fun m c =>
        if df.cols.contains c then dset c (f (df.col c)) m else m) acc) = dget col acc := by
  intro ks
  induction ks with
  | nil => intro acc _; rfl
  | cons k t ih =>
    intro acc h
    have hk : k ≠ col := fun hk => h (hk ▸ List.mem_cons_self k t)
    have ht : col ∉ t := fun ht => h (List.mem_cons_of_mem k ht)
    simp only [List.foldl_cons]
    by_cases hc : df.cols.contains k
    · rw [if_pos hc, ih _ ht, dget_dset_ne col k _ hk]
    · rw [if_neg hc, ih _ ht]

theorem perColumn_get {β : Type} (df : DataFrame) (f : List Cell → β) :
    ∀ (ks : List String) (acc : List (String × β)) (col : String),
      ks.Nodup → col ∈ ks → df.cols.contains col = true →
      dget col (ks.foldl (fun m c =>
        if df.cols.contains c then dset c (f (df.col c)) m else m) acc)
        = some (f (df.col col)) := by
  intro ks
  induction ks with
  | nil => intro acc col _ h; simp at h
  | cons k t ih =>
    intro acc col hnd hmem hpres
    have hnd' := List.nodup_cons.mp hnd
    simp only [List.foldl_cons]
    rcases List.mem_cons.mp hmem with rfl | hmt
    · rw [if_pos hpres, perColumn_skip df f col t _ hnd'.1, dget_dset_self]
    · by_cases hc : df.cols.contains k
      · rw [if_pos hc]; exact ih _ col hnd'.2 hmt hpres
      · rw [if_neg hc]; exact ih _ col hnd'.2 hmt hpres

/-- **C8** (confirmed).  For every CategoryTable column among the canonical
key columns, the exploration's top-5 report pairs each value with its
count, sorted by count descending, ties broken by first-encountered order:
a column holding `[x, x, y, y, z]` reports `x:2, y:2, z:1` with `x` before
`y`. -/
theorem claim_C8_top5_determinism (df : DataFrame) (col x y z : String)
    (hcol : col ∈ KEY_COLUMNS) (hpresent : df.cols.contains col = true)
    (hvals : df.col col = [some x, some x, some y, some y, some z])
    (hxy : x ≠ y) (hxz : x ≠ z) (hyz : y ≠ z) :
    dget col (deep_exploration df KEY_COLUMNS).top_valores
      = some [(some x, 2), (some y, 2), (some z, 1)] := by
  have hkn : KEY_COLUMNS.Nodup := by decide
  have h1 : dget col (deep_exploration df KEY_COLUMNS).top_valores
      = some ((valueCounts (df.col col)).take 5) := by
    show dget col (perColumn df KEY_COLUMNS (fun l => (valueCounts l).take 5))
      = some ((fun l => (valueCounts l).take 5) (df.col col))
    unfold perColumn
    exact perColumn_get df (fun l => (valueCounts l).take 5) KEY_COLUMNS [] col hkn hcol hpresent
  rw [h1, hvals]
  have hyx : y ≠ x := Ne.symm hxy
  have hzx : z ≠ x := Ne.symm hxz
  have hzy : z ≠ y := Ne.symm hyz
  simp [valueCounts, firstDedup, sortDesc, insDesc, List.count_cons,
    hxy, hxz, hyz, hyx, hzx, hzy]

theorem claim_C8_witness :
    dget "DEPARTAMENTO"
      (deep_exploration
        ⟨KEY_COLUMNS,
         [[some "X", some "", some "", some "", some "", some "", some "", some ""],
          [some "X", some "", some "", some "", some "", some "", some "", some ""],
          [some "Y", some "", some "", some "", some "", some "", some "", some ""],
          [some "Y", some "", some "", some "", some "", some "", some "", some ""],
          [some "Z", some "", some "", some "", some "", some "", some "", some ""]]⟩
        KEY_COLUMNS).top_valores
      = some [(some "X", 2), (some "Y", 2), (some "Z", 1)] :=
  claim_C8_top5_determinism _ "DEPARTAMENTO" "X" "Y" "Z"
    (by decide) (by decide) (by decide) (by decide) (by decide) (by decide)

/-! Lemmas for the ColumnNormalizer idempotence analysis (C4).

Every character produced by the first pass is stable; the only way a
second pass can differ is through the interplay of whitespace collapsing
and asterisk stripping at the edges. -/

theorem stable_space : stableCharB ' ' = true := by decide

theorem upperMap_image_stable :
    ∀ p ∈ upperMap,
      ((nfdChar (toSpaceU p.2)).filter (fun c => !(isMn c))).all stableCharB = true := by
  decide

theorem nfdMap_image_stable :
    ∀ p ∈ nfdMap, upperMap.lookup p.1 = none →
      (p.2.filter (fun c => !(isMn c))).all stableCharB = true := by
  decide

theorem lookup_mem {α β : Type} [BEq α] [LawfulBEq α] {l : List (α × β)} {a : α} {b : β}
    (h : l.lookup a = some b) : (a, b) ∈ l := by
  induction l with
  | nil => simp [List.lookup] at h
  | cons p t ih =>
    rw [List.lookup_cons] at h
    by_cases hp : a == p.1
    · simp only [hp] at h
      have ha : a = p.1 := by simpa using hp
      have hb : p.2 = b := by simpa using h
      have hpab : p = (a, b) := by
        cases p
        simp only at ha hb
        rw [← ha, hb]
      rw [← hpab]
      exact List.mem_cons_self p t
    · simp only [hp] at h
      exact List.mem_cons_of_mem p (ih h)

/-- Every character surviving the upper/underscore/deaccent stage applied to
one source character is stable. -/
theorem stage_char_stable (c d : Char)
    (hd : d ∈ (nfdChar (toSpaceU (upperChar c))).filter (fun c => !(isMn c))) :
    stableCharB d = true := by
  rcases hu : upperMap.lookup c with _ | u
  · have hcc : upperChar c = c := by simp [upperChar, hu]
    rw [hcc] at hd
    by_cases hus : c = '_'
    · rw [hus] at hd
      have : (nfdChar (toSpaceU '_')).filter (fun c => !(isMn c)) = [' '] := by decide
      rw [this] at hd
      simp at hd
      rw [hd]; decide
    · have htc : toSpaceU c = c := by simp [toSpaceU, hus]
      rw [htc] at hd
      rcases hn : nfdMap.lookup c with _ | l
      · have hnc : nfdChar c = [c] := by simp [nfdChar, hn]
        rw [hnc] at hd
        by_cases hm : isMn c
        · simp [hm] at hd
        · simp [hm] at hd
          rw [hd]
          simp [stableCharB, hcc, htc, hnc, hm]
      · have hmem : (c, l) ∈ nfdMap := lookup_mem hn
        have hnc : nfdChar c = l := by simp [nfdChar, hn]
        rw [hnc] at hd
        have := nfdMap_image_stable (c, l) hmem hu
        exact List.all_eq_true.mp this d hd
  · have hmem : (c, u) ∈ upperMap := lookup_mem hu
    have hcc : upperChar c = u := by simp [upperChar, hu]
    rw [hcc] at hd
    exact List.all_eq_true.mp (upperMap_image_stable (c, u) hmem) d hd

theorem deaccent_cons (a : Char) (t : List Char) :
    deaccent (a :: t) = (nfdChar a).filter (fun c => !(isMn c)) ++ deaccent t := by
  simp [deaccent, nfdExpand, List.filter_append]

/-- Every character of the first pass's pre-collapse stage is stable. -/
theorem stage_stable (l : List Char) :
    ∀ d ∈ deaccent ((l.map upperChar).map toSpaceU), stableCharB d = true := by
  induction l with
  | nil => intro d hd; simp [deaccent, nfdExpand] at hd
  | cons c t ih =>
    intro d hd
    simp only [List.map_cons] at hd
    rw [deaccent_cons] at hd
    rcases List.mem_append.mp hd with h | h
    · exact stage_char_stable c d h
    · exact ih d h

/-! Equation lemmas for `pySplit`. -/

theorem pySplit_cons_space {c : Char} {cs : List Char} (h : isPySpace c = true) :
    pySplit (c :: cs) = pySplit cs := by
  rw [pySplit, if_pos h]

theorem pySplit_cons_wordNew {c : Char} {cs : List Char}
    (hc : isPySpace c = false) (hps : pySplit cs = []) :
    pySplit (c :: cs) = [[c]] := by
  rw [pySplit, if_neg (by simp [hc]), hps]

theorem pySplit_cons_ext {c : Char} {cs : List Char} {w : List Char} {ws : List (List Char)}
    (hc : isPySpace c = false) (hps : pySplit cs = w :: ws)
    (hh : cs.head?.any (fun d => !isPySpace d) = true) :
    pySplit (c :: cs) = (c :: w) :: ws := by
  rw [pySplit, if_neg (by simp [hc]), hps]
  show (if cs.head?.any (fun d => !isPySpace d) = true
        then (c :: w) :: ws else [c] :: w :: ws) = (c :: w) :: ws
  rw [if_pos hh]

theorem pySplit_cons_sep {c : Char} {cs : List Char} {w : List Char} {ws : List (List Char)}
    (hc : isPySpace c = false) (hps : pySplit cs = w :: ws)
    (hh : cs.head?.any (fun d => !isPySpace d) = false) :
    pySplit (c :: cs) = [c] :: w :: ws := by
  rw [pySplit, if_neg (by simp [hc]), hps]
  show (if cs.head?.any (fun d => !isPySpace d) = true
        then (c :: w) :: ws else [c] :: w :: ws) = [c] :: w :: ws
  rw [if_neg (by simp [hh])]

/-- `pySplit` produces nonempty whitespace-free words. -/
theorem pySplit_words :
    ∀ (l : List Char), ∀ w ∈ pySplit l, w ≠ [] ∧ ∀ c ∈ w, isPySpace c = false := by
  intro l
  induction l with
  | nil => intro w hw; simp [pySplit] at hw
  | cons c cs ih =>
    intro w hw
    by_cases hc : isPySpace c
    · rw [pySplit_cons_space hc] at hw
      exact ih w hw
    · rw [Bool.not_eq_true] at hc
      rcases hps : pySplit cs with _ | ⟨w', ws⟩
      · rw [pySplit_cons_wordNew hc hps] at hw
        simp at hw
        subst hw
        exact ⟨by simp, by
          intro d hd
          simp at hd
          subst hd
          exact hc⟩
      · have hw' := ih w' (hps ▸ List.mem_cons_self w' ws)
        by_cases hh : cs.head?.any (fun d => !isPySpace d)
        · rw [pySplit_cons_ext hc hps hh] at hw
          rcases List.mem_cons.mp hw with rfl | hmem
          · refine ⟨by simp, ?_⟩
            intro d hd
            rcases List.mem_cons.mp hd with rfl | hd'
            · exact hc
            · exact hw'.2 d hd'
          · exact ih w (hps ▸ List.mem_cons_of_mem w' hmem)
        · rw [Bool.not_eq_true] at hh
          rw [pySplit_cons_sep hc hps hh] at hw
          rcases List.mem_cons.mp hw with rfl | hmem
          · exact ⟨by simp, by
              intro d hd
              simp at hd
              subst hd
              exact hc⟩
          · exact ih w (hps ▸ hmem)

/-- Characters of `pySplit`'s words come from the input. -/
theorem pySplit_subset :
    ∀ (l : List Char), ∀ w ∈ pySplit l, ∀ c ∈ w, c ∈ l := by
  intro l
  induction l with
  | nil => intro w hw; simp [pySplit] at hw
  | cons c cs ih =>
    intro w hw d hd
    by_cases hc : isPySpace c
    · rw [pySplit_cons_space hc] at hw
      exact List.mem_cons_of_mem c (ih w hw d hd)
    · rw [Bool.not_eq_true] at hc
      rcases hps : pySplit cs with _ | ⟨w', ws⟩
      · rw [pySplit_cons_wordNew hc hps] at hw
        simp at hw
        subst hw
        simp at hd
        simp [hd]
      · by_cases hh : cs.head?.any (fun d => !isPySpace d)
        · rw [pySplit_cons_ext hc hps hh] at hw
          rcases List.mem_cons.mp hw with rfl | hmem
          · rcases List.mem_cons.mp hd with rfl | hd'
            · simp
            · exact List.mem_cons_of_mem c (ih w' (hps ▸ List.mem_cons_self w' ws) d hd')
          · exact List.mem_cons_of_mem c (ih w (hps ▸ List.mem_cons_of_mem w' hmem) d hd)
        · rw [Bool.not_eq_true] at hh
          rw [pySplit_cons_sep hc hps hh] at hw
          rcases List.mem_cons.mp hw with rfl | hmem
          · simp at hd
            simp [hd]
          · exact List.mem_cons_of_mem c (ih w (hps ▸ hmem) d hd)

theorem joinSp_cons (w : List Char) (ws : List (List Char)) (h : ws ≠ []) :
    joinSp (w :: ws) = w ++ ' ' :: joinSp ws := by
  cases ws with
  | nil => exact absurd rfl h
  | cons w' t => rfl

/-- Characters of a join come from the words or are the separator. -/
theorem joinSp_chars :
    ∀ (ws : List (List Char)) (d : Char), d ∈ joinSp ws →
      (∃ w ∈ ws, d ∈ w) ∨ d = ' ' := by
  intro ws
  induction ws with
  | nil => intro d hd; simp [joinSp] at hd
  | cons w t ih =>
    intro d hd
    cases t with
    | nil =>
      exact Or.inl ⟨w, List.mem_cons_self w [], by simpa [joinSp] using hd⟩
    | cons w' t' =>
      rw [joinSp_cons w _ (by simp)] at hd
      rcases List.mem_append.mp hd with h | h
      · exact Or.inl ⟨w, List.mem_cons_self w _, h⟩
      · rcases List.mem_cons.mp h with rfl | h'
        · exact Or.inr rfl
        · rcases ih d h' with ⟨w'', hw'', hd''⟩ | h''
          · exact Or.inl ⟨w'', List.mem_cons_of_mem w hw'', hd''⟩
          · exact Or.inr h''

theorem joinSp_ne_nil (w : List Char) (ws : List (List Char)) (hw : w ≠ []) :
    joinSp (w :: ws) ≠ [] := by
  cases ws with
  | nil => simpa [joinSp] using hw
  | cons w' t =>
    rw [joinSp_cons w _ (by simp)]
    simp [hw]

theorem joinSp_head (ws : List (List Char)) (hws : WordList ws) :
    ∀ c, (joinSp ws).head? = some c → isPySpace c = false := by
  cases ws with
  | nil => intro c hc; simp [joinSp] at hc
  | cons w t =>
    intro c hc
    have hw := hws w (List.mem_cons_self w t)
    have hhd : w.head? = some c := by
      cases t with
      | nil => simpa [joinSp] using hc
      | cons w' t' =>
        rw [joinSp_cons w _ (by simp), List.head?_append_of_ne_nil _ hw.1] at hc
        exact hc
    exact hw.2 c (List.mem_of_mem_head? hhd)

theorem joinSp_getLast (ws : List (List Char)) (hws : WordList ws) :
    ∀ c, (joinSp ws).getLast? = some c → isPySpace c = false := by
  induction ws with
  | nil => intro c hc; simp [joinSp] at hc
  | cons w t ih =>
    intro c hc
    have hw := hws w (List.mem_cons_self w t)
    cases t with
    | nil =>
      have : w.getLast? = some c := by simpa [joinSp] using hc
      exact hw.2 c (List.mem_of_mem_getLast? this)
    | cons w' t' =>
      have ht : WordList (w' :: t') := fun u hu => hws u (List.mem_cons_of_mem w hu)
      have hne : joinSp (w' :: t') ≠ [] := joinSp_ne_nil w' t' (ht w' (List.mem_cons_self w' t')).1
      rw [joinSp_cons w _ (by simp)] at hc
      rw [List.getLast?_append_cons] at hc
      refine ih ht c ?_
      rcases hj : joinSp (w' :: t') with _ | ⟨a, t''⟩
      · exact absurd hj hne
      · rw [hj, List.getLast?_cons_cons] at hc
        exact hc

theorem chain_of_all_nonspace (w : List Char) (h : ∀ c ∈ w, isPySpace c = false) :
    List.Chain' NoTwoSp w := by
  induction w with
  | nil => exact List.chain'_nil
  | cons a t ih =>
    cases t with
    | nil => exact List.chain'_singleton a
    | cons b t' =>
      refine List.chain'_cons.mpr ⟨?_, ?_⟩
      · intro hab
        rw [h a (List.mem_cons_self a _)] at hab
        exact absurd hab.1 (by simp)
      · exact ih (fun c hc => h c (List.mem_cons_of_mem a hc))

theorem joinSp_chain (ws : List (List Char)) (hws : WordList ws) :
    List.Chain' NoTwoSp (joinSp ws) := by
  induction ws with
  | nil => exact List.chain'_nil
  | cons w t ih =>
    have hw := hws w (List.mem_cons_self w t)
    cases t with
    | nil => simpa [joinSp] using chain_of_all_nonspace w hw.2
    | cons w' t' =>
      have ht : WordList (w' :: t') := fun u hu => hws u (List.mem_cons_of_mem w hu)
      rw [joinSp_cons w _ (by simp)]
      refine List.chain'_append.mpr ⟨chain_of_all_nonspace w hw.2, ?_, ?_⟩
      · refine List.chain'_cons'.mpr ⟨?_, ih ht⟩
        intro y hy hsp
        rw [joinSp_head _ ht y hy] at hsp
        exact absurd hsp.2 (by simp)
      · intro x hx y hy hsp
        rw [hw.2 x (List.mem_of_mem_getLast? hx)] at hsp
        exact absurd hsp.1 (by simp)

/-! Strip lemmas. -/

theorem dropTrail_cons_nil {p : Char → Bool} {c : Char} {cs : List Char}
    (h : dropTrail p cs = []) :
    dropTrail p (c :: cs) = if p c then [] else [c] := by
  rw [dropTrail, h]

theorem dropTrail_cons_cons {p : Char → Bool} {c a : Char} {cs t : List Char}
    (h : dropTrail p cs = a :: t) :
    dropTrail p (c :: cs) = c :: a :: t := by
  rw [dropTrail, h]

theorem mem_dropLead (p : Char → Bool) :
    ∀ (l : List Char) (d : Char), d ∈ dropLead p l → d ∈ l := by
  intro l
  induction l with
  | nil => intro d hd; simp [dropLead] at hd
  | cons c cs ih =>
    intro d hd
    rw [dropLead] at hd
    by_cases hc : p c
    · rw [if_pos hc] at hd
      exact List.mem_cons_of_mem c (ih d hd)
    · rw [if_neg hc] at hd
      exact hd

theorem mem_dropTrail (p : Char → Bool) :
    ∀ (l : List Char) (d : Char), d ∈ dropTrail p l → d ∈ l := by
  intro l
  induction l with
  | nil => intro d hd; simp [dropTrail] at hd
  | cons c cs ih =>
    intro d hd
    rcases hr : dropTrail p cs with _ | ⟨a, t⟩
    · rw [dropTrail_cons_nil hr] at hd
      by_cases hc : p c
      · rw [if_pos hc] at hd; cases hd
      · rw [if_neg hc] at hd
        simp at hd
        simp [hd]
    · rw [dropTrail_cons_cons hr] at hd
      rcases List.mem_cons.mp hd with rfl | hd'
      · simp
      · exact List.mem_cons_of_mem c (ih d (hr ▸ hd'))

theorem chain_dropLead (R : Char → Char → Prop) (p : Char → Bool) :
    ∀ (l : List Char), List.Chain' R l → List.Chain' R (dropLead p l) := by
  intro l
  induction l with
  | nil => intro h; exact h
  | cons c cs ih =>
    intro h
    rw [dropLead]
    by_cases hc : p c
    · rw [if_pos hc]
      exact ih h.tail
    · rw [if_neg hc]
      exact h

theorem dropTrail_head (p : Char → Bool) :
    ∀ (l : List Char), dropTrail p l ≠ [] → (dropTrail p l).head? = l.head? := by
  intro l
  cases l with
  | nil => intro h; exact absurd rfl h
  | cons c cs =>
    intro h
    rcases hr : dropTrail p cs with _ | ⟨a, t⟩
    · rw [dropTrail_cons_nil hr]
      rw [dropTrail_cons_nil hr] at h
      by_cases hc : p c
      · rw [if_pos hc] at h; exact absurd rfl h
      · rw [if_neg hc]
        rfl
    · rw [dropTrail_cons_cons hr]
      rfl

theorem chain_dropTrail (R : Char → Char → Prop) (p : Char → Bool) :
    ∀ (l : List Char), List.Chain' R l → List.Chain' R (dropTrail p l) := by
  intro l
  induction l with
  | nil => intro h; exact h
  | cons c cs ih =>
    intro h
    rcases hr : dropTrail p cs with _ | ⟨a, t⟩
    · rw [dropTrail_cons_nil hr]
      by_cases hc : p c
      · rw [if_pos hc]; exact List.chain'_nil
      · rw [if_neg hc]; exact List.chain'_singleton c
    · rw [dropTrail_cons_cons hr]
      have ih' := ih h.tail
      rw [hr] at ih'
      refine List.chain'_cons'.mpr ⟨?_, ih'⟩
      intro y hy
      simp at hy
      subst hy
      have hhd : cs.head? = some a := by
        have h1 := dropTrail_head p cs (by rw [hr]; simp)
        rw [hr] at h1
        exact h1.symm.trans rfl |>.symm ▸ h1.symm
      cases cs with
      | nil => cases hhd
      | cons b t2 =>
        have hb : b = a := by simpa using hhd
        subst hb
        exact (List.chain'_cons.mp h).1

theorem dropLead_head (p : Char → Bool) :
    ∀ (l : List Char) (c : Char), (dropLead p l).head? = some c → p c = false := by
  intro l
  induction l with
  | nil => intro c hc; cases hc
  | cons a cs ih =>
    intro c hc
    rw [dropLead] at hc
    by_cases ha : p a
    · rw [if_pos ha] at hc
      exact ih c hc
    · rw [if_neg ha] at hc
      simp at hc
      subst hc
      exact Bool.not_eq_true _ ▸ by simpa using ha

theorem dropTrail_getLast (p : Char → Bool) :
    ∀ (l : List Char) (c : Char), (dropTrail p l).getLast? = some c → p c = false := by
  intro l
  induction l with
  | nil => intro c hc; cases hc
  | cons a cs ih =>
    intro c hc
    rcases hr : dropTrail p cs with _ | ⟨b, t⟩
    · rw [dropTrail_cons_nil hr] at hc
      by_cases ha : p a
      · rw [if_pos ha] at hc; cases hc
      · rw [if_neg ha] at hc
        simp at hc
        subst hc
        simpa using ha
    · rw [dropTrail_cons_cons hr, List.getLast?_cons_cons] at hc
      exact ih c (hr ▸ hc)

theorem dropLead_id (p : Char → Bool) (l : List Char)
    (h : ∀ c, l.head? = some c → p c = false) : dropLead p l = l := by
  cases l with
  | nil => rfl
  | cons c cs =>
    rw [dropLead, if_neg (by simp [h c rfl])]

theorem dropTrail_id (p : Char → Bool) :
    ∀ (l : List Char), (∀ c, l.getLast? = some c → p c = false) → dropTrail p l = l := by
  intro l
  induction l with
  | nil => intro _; rfl
  | cons c cs ih =>
    intro h
    cases cs with
    | nil =>
      have hc : p c = false := h c rfl
      rw [dropTrail_cons_nil (show dropTrail p [] = [] from rfl), if_neg (by simp [hc])]
    | cons b t =>
      have ht : dropTrail p (b :: t) = b :: t := by
        refine ih ?_
        intro d hd
        refine h d ?_
        rw [List.getLast?_cons_cons]
        exact hd
      rw [dropTrail_cons_cons ht]

theorem pyStrip_id (p : Char → Bool) (l : List Char)
    (hh : ∀ c, l.head? = some c → p c = false)
    (hl : ∀ c, l.getLast? = some c → p c = false) : pyStrip p l = l := by
  unfold pyStrip
  rw [dropLead_id p l hh, dropTrail_id p l hl]

theorem joinSp_cons_word (c : Char) (w : List Char) (ws : List (List Char)) :
    joinSp ((c :: w) :: ws) = c :: joinSp (w :: ws) := by
  cases ws <;> rfl

/-- The fixpoint lemma: whitespace-collapsing (`' '.join(s.split())`) is the
identity on a string whose whitespace is single `' '` separators away from
the edges. -/
theorem joinSp_pySplit_fix :
    ∀ (n : Nat) (l : List Char), l.length ≤ n →
      (∀ c ∈ l, isPySpace c = true → c = ' ') →
      List.Chain' NoTwoSp l →
      (∀ c, l.head? = some c → isPySpace c = false) →
      (∀ c, l.getLast? = some c → isPySpace c = false) →
      joinSp (pySplit l) = l := by
  intro n
  induction n with
  | zero =>
    intro l hl _ _ _ _
    have : l = [] := List.length_eq_zero.mp (Nat.le_zero.mp hl)
    subst this
    rfl
  | succ n ihn =>
    intro l hl hall hch hhd hlast
    rcases l with _ | ⟨c, _ | ⟨d, t⟩⟩
    · rfl
    · have hc : isPySpace c = false := hhd c rfl
      rw [pySplit_cons_wordNew hc (show pySplit [] = [] from rfl)]
      rfl
    · have hc : isPySpace c = false := hhd c rfl
      by_cases hd : isPySpace d
      · -- the separator case: d is a space, so d = ' ' and t is nonempty
        have hd' : d = ' ' := hall d (by simp) hd
        cases t with
        | nil =>
          exfalso
          have := hlast d (by simp)
          rw [this] at hd
          cases hd
        | cons e t' =>
          have hde : NoTwoSp d e := (List.chain'_cons.mp hch.tail).1
          have he : isPySpace e = false := by
            by_cases hee : isPySpace e
            · exact absurd ⟨hd, hee⟩ hde
            · simpa using hee
          have hIH : joinSp (pySplit (e :: t')) = e :: t' := by
            refine ihn (e :: t') ?_ ?_ ?_ ?_ ?_
            · simp at hl ⊢; omega
            · intro a ha hsp
              exact hall a (List.mem_cons_of_mem c (List.mem_cons_of_mem d ha)) hsp
            · exact hch.tail.tail
            · intro a ha
              simp at ha
              subst ha
              exact he
            · intro a ha
              refine hlast a ?_
              rw [List.getLast?_cons_cons, List.getLast?_cons_cons]
              exact ha
          rcases hps : pySplit (e :: t') with _ | ⟨w, ws⟩
          · rw [hps] at hIH
            cases hIH
          · have h1 : pySplit (d :: e :: t') = w :: ws := by
              rw [pySplit_cons_space hd, hps]
            have hsplit : pySplit (c :: d :: e :: t') = [c] :: w :: ws :=
              pySplit_cons_sep hc h1 (by simp [hd])
            rw [hsplit, joinSp_cons [c] (w :: ws) (by simp), ← hps, hIH, hd']
            rfl
      · -- the word-extension case: d continues c's word
        rw [Bool.not_eq_true] at hd
        have hIH : joinSp (pySplit (d :: t)) = d :: t := by
          refine ihn (d :: t) ?_ ?_ ?_ ?_ ?_
          · simp at hl ⊢; omega
          · intro a ha hsp
            exact hall a (List.mem_cons_of_mem c ha) hsp
          · exact hch.tail
          · intro a ha
            simp at ha
            subst ha
            exact hd
          · intro a ha
            refine hlast a ?_
            rw [List.getLast?_cons_cons]
            exact ha
        rcases hps : pySplit (d :: t) with _ | ⟨w, ws⟩
        · rw [hps] at hIH
          cases hIH
        · have hsplit : pySplit (c :: d :: t) = (c :: w) :: ws :=
            pySplit_cons_ext hc hps (by simp [hd])
          rw [hsplit, joinSp_cons_word, ← hps, hIH]

theorem stable_parts (c : Char) (h : stableCharB c = true) :
    upperChar c = c ∧ toSpaceU c = c ∧ nfdChar c = [c] ∧ isMn c = false := by
  simp only [stableCharB, Bool.and_eq_true, beq_iff_eq, Bool.not_eq_true'] at h
  exact ⟨h.1.1.1, h.1.1.2, h.1.2, h.2⟩

theorem map_upper_id (l : List Char) (h : ∀ c ∈ l, stableCharB c = true) :
    l.map upperChar = l := by
  induction l with
  | nil => rfl
  | cons c t ih =>
    rw [List.map_cons, (stable_parts c (h c (List.mem_cons_self c t))).1,
      ih (fun d hd => h d (List.mem_cons_of_mem c hd))]

theorem map_toSpaceU_id (l : List Char) (h : ∀ c ∈ l, stableCharB c = true) :
    l.map toSpaceU = l := by
  induction l with
  | nil => rfl
  | cons c t ih =>
    rw [List.map_cons, (stable_parts c (h c (List.mem_cons_self c t))).2.1,
      ih (fun d hd => h d (List.mem_cons_of_mem c hd))]

theorem deaccent_id (l : List Char) (h : ∀ c ∈ l, stableCharB c = true) :
    deaccent l = l := by
  induction l with
  | nil => rfl
  | cons c t ih =>
    have hp := stable_parts c (h c (List.mem_cons_self c t))
    rw [deaccent_cons, hp.2.2.1, ih (fun d hd => h d (List.mem_cons_of_mem c hd))]
    simp [hp.2.2.2]

/-- Properties of a first normalization pass's output character list:
every character is stable, whitespace is only single interior `' '`
separators, and no asterisk remains at either edge. -/
theorem normalize_output_props (x : String) :
    (∀ c ∈ (normalize_column x).data, stableCharB c = true) ∧
    (∀ c ∈ (normalize_column x).data, isPySpace c = true → c = ' ') ∧
    List.Chain' NoTwoSp (normalize_column x).data ∧
    (∀ c, (normalize_column x).data.head? = some c → (c == '*') = false) ∧
    (∀ c, (normalize_column x).data.getLast? = some c → (c == '*') = false) := by
  have hdata : (normalize_column x).data
      = pyStrip (fun c => c == '*')
          (joinSp (pySplit (deaccent ((x.data.map upperChar).map toSpaceU)))) := rfl
  rw [hdata]
  set q : Char → Bool := fun c => c == '*'
  set s1 := deaccent ((x.data.map upperChar).map toSpaceU)
  set j := joinSp (pySplit s1)
  have hwords : WordList (pySplit s1) := fun w hw => pySplit_words s1 w hw
  have hmemj : ∀ c ∈ pyStrip q j, c ∈ j := fun c hcy =>
    mem_dropLead q j c (mem_dropTrail q (dropLead q j) c hcy)
  refine ⟨?_, ?_, ?_, ?_, ?_⟩
  · intro c hcy
    rcases joinSp_chars (pySplit s1) c (hmemj c hcy) with ⟨w, hw, hcw⟩ | rfl
    · exact stage_stable x.data c (pySplit_subset s1 w hw c hcw)
    · exact stable_space
  · intro c hcy hsp
    rcases joinSp_chars (pySplit s1) c (hmemj c hcy) with ⟨w, hw, hcw⟩ | rfl
    · rw [(hwords w hw).2 c hcw] at hsp
      cases hsp
    · rfl
  · exact chain_dropTrail NoTwoSp q _
      (chain_dropLead NoTwoSp q j (joinSp_chain (pySplit s1) hwords))
  · intro c hc
    have hne : dropTrail q (dropLead q j) ≠ [] := by
      intro he
      rw [show pyStrip q j = dropTrail q (dropLead q j) from rfl, he] at hc
      cases hc
    have h1 := dropTrail_head q (dropLead q j) hne
    have h2 : (dropLead q j).head? = some c := by
      rw [← h1]
      exact hc
    exact dropLead_head q j c h2
  · intro c hc
    exact dropTrail_getLast q (dropLead q j) c hc

/-- **C4** (corrected, counterexample `claim_C4_cex`).  ColumnNormalizer is
idempotent on every input whose first-pass result has no leading or
trailing whitespace — in particular on every asterisk-free input — but not
on all strings: stripping edge asterisks after whitespace collapsing can
expose a leading/trailing space that only a second pass removes. -/
theorem claim_C4_idempotent_on_trimmed (x : String)
    (h : noEdgeSpaceB (normalize_column x) = true) :
    normalize_column (normalize_column x) = normalize_column x := by
  obtain ⟨hystable, hally, hchainy, hyhd, hylast⟩ := normalize_output_props x
  rw [noEdgeSpaceB, Bool.and_eq_true] at h
  have hhdy : ∀ c, (normalize_column x).data.head? = some c → isPySpace c = false := by
    intro c hc
    have := h.1
    rw [hc] at this
    simpa using this
  have hlasty : ∀ c, (normalize_column x).data.getLast? = some c → isPySpace c = false := by
    intro c hc
    have := h.2
    rw [hc] at this
    simpa using this
  have hnorm2 : normalize_column (normalize_column x)
      = String.mk (pyStrip (fun c => c == '*')
          (joinSp (pySplit (deaccent
            (((normalize_column x).data.map upperChar).map toSpaceU))))) := rfl
  rw [hnorm2, map_upper_id _ hystable, map_toSpaceU_id _ hystable, deaccent_id _ hystable,
    joinSp_pySplit_fix (normalize_column x).data.length _ le_rfl hally hchainy hhdy hlasty,
    pyStrip_id _ _ hyhd hylast]

/-- **C4** (counterexample).  `normalize_column` is not idempotent on all
strings: on `"* a"` the first pass yields `" A"` (the asterisk strip
exposes a space) and the second pass yields `"A"`. -/
theorem claim_C4_cex :
    normalize_column (normalize_column "* a") ≠ normalize_column "* a" := by decide

theorem claim_C4_witness :
    noEdgeSpaceB (normalize_column "  Depto*") = true ∧
    normalize_column (normalize_column "  Depto*") = normalize_column "  Depto*" :=
  ⟨by decide, claim_C4_idempotent_on_trimmed "  Depto*" (by decide)⟩

end Exploracion
